import Mathlib

/-!
Verification of the AI-Moving-Cost-Estimator repository.

The repository has two computational stages: a video-analysis stage that
obtains an inventory from an inference service, and a pricing stage that
turns an inventory plus move logistics into a cost estimate.  The pricing
arithmetic, the deterministic staffing fallback, the structured-output
(code-fence) cleanup of inference responses and the temp-file handling of
the upload endpoint are embedded below.

Numbers: the Python code computes on floats and uses Python `round`
(banker's rounding).  The embedding uses `ℚ` with an explicit
round-half-to-even function, which agrees with the source on every value
exercised here (all intermediate quantities are exact decimals).
-/

/-! ### Rounding: Python `round(x, ndigits)` (round-half-to-even) over `ℚ` -/

/-- Round a rational to the nearest integer, ties to even (Python `round`). -/
def rne (x : ℚ) : ℤ :=
  let f := ⌊x⌋
  let r := x - f
  if r < 1/2 then f else if 1/2 < r then f + 1 else if f % 2 = 0 then f else f + 1

/-- Python `round(x, 2)`. -/
def round2 (x : ℚ) : ℚ := (rne (x * 100) : ℚ) / 100

/-- Python `round(x, 1)`. -/
def round1 (x : ℚ) : ℚ := (rne (x * 10) : ℚ) / 10

/-! ### Data model (src/move.py, src/main.py)

An inventory dict as consumed by the pricing step: `inventory.get(key, default)`
is modelled by `Option.getD`, so a missing key is `none`.  The item list plays
no role in pricing and is omitted.  -/

structure Inventory where
  total_volume_cubic_feet : Option ℚ
  needs_special_handling : Option (List String)

/-- The parsed Stage-2 structured output (`ai_estimate` dict in the source):
each key may be absent. -/
structure AiEstimate where
  recommended_movers : Option ℚ
  truck_type : Option String
  complexity_hours_add : Option ℚ
  special_notes : Option String

structure CostBreakdown where
  labor : ℚ
  truck : ℚ
  fuel : ℚ
  materials : ℚ
  stairs_fee : ℚ
  other : ℚ

structure CostEstimate where
  total_cost : ℚ
  cost_range : ℚ × ℚ
  movers_needed : ℚ
  truck_type : String
  estimated_hours : ℚ
  breakdown : CostBreakdown
  special_notes : String

/-- Python dict access `d[k]` on a string-keyed rate table: `none` models a
`KeyError`. -/
def dictGet (l : List (String × ℚ)) (k : String) : Option ℚ :=
  match l with
  | [] => none
  | (k', v) :: t => if k' = k then some v else dictGet t k

/-! ### PRICING_CONFIG (src/move.py lines 83-95 = src/main.py lines 139-151) -/

structure PricingConfig where
  labor_rate_per_hour : ℚ
  truck_rates : List (String × ℚ)
  fuel_cost_per_km : ℚ
  stairs_fee_per_floor : ℚ
  packing_material_per_cubic_feet : ℚ
  base_hours : ℚ
  hour_per_100_cubic_feet : ℚ

def PRICING_CONFIG : PricingConfig :=
  { labor_rate_per_hour := 35
    truck_rates := [("small", 75), ("medium", 120), ("large", 180)]
    fuel_cost_per_km := 0.5
    stairs_fee_per_floor := 25
    packing_material_per_cubic_feet := 0.20
    base_hours := 4
    hour_per_100_cubic_feet := 0.5 }

/-! ### Deterministic fallback (src/move.py lines 290-297, src/main.py 216-223) -/

/-- The `except` branch of the Stage-2 call: fallback staffing rules. -/
def fallback_estimate (inventory : Inventory) : AiEstimate :=
  let volume := inventory.total_volume_cubic_feet.getD 500
  { recommended_movers := some (if volume < 400 then 2 else if volume < 800 then 3 else 4)
    truck_type := some (if volume < 400 then "small" else if volume < 900 then "medium" else "large")
    complexity_hours_add :=
      some (((inventory.needs_special_handling.getD []).length : ℚ) * 0.5)
    special_notes := some "" }

/-- The fallback rule exactly as the specification states it (spec section 4.2),
written from the spec's words for comparison with `fallback_estimate`. -/
def fallback_rule_spec (inventory : Inventory) : AiEstimate :=
  let v := inventory.total_volume_cubic_feet.getD 500
  { recommended_movers := some (if v < 400 then 2 else if v < 800 then 3 else 4)
    truck_type := some (if v < 400 then "small" else if v < 900 then "medium" else "large")
    complexity_hours_add :=
      some (0.5 * ((inventory.needs_special_handling.getD []).length : ℚ))
    special_notes := some "" }

/-! ### Pricing (src/move.py `calculate_cost`, lines 299-353)

The inference call and its parse are external; their outcome is the
parameter `ai_result`: `some d` when the call and parse succeeded with
parsed dict `d`, `none` when either failed (the `except` branch runs).
Python dict subscripts (`KeyError` on absence) are the `match`es on
`Option`; `.get(k, default)` is `Option.getD`.  -/

inductive PyErr where
  | keyError (k : String)
deriving DecidableEq

def calculate_cost (ai_result : Option AiEstimate) (inventory : Inventory)
    (distance_km : ℚ) (origin_floor destination_floor : ℤ)
    (has_elevator_origin has_elevator_destination : Bool) :
    Except PyErr CostEstimate :=
  let ai_estimate :=
    match ai_result with
    | some d => d
    | none => fallback_estimate inventory
  let volume := inventory.total_volume_cubic_feet.getD 500
  match ai_estimate.recommended_movers with
  | none => .error (.keyError "recommended_movers")
  | some movers =>
  match ai_estimate.truck_type with
  | none => .error (.keyError "truck_type")
  | some truck_type =>
  let base_hours := PRICING_CONFIG.base_hours
  let volume_hours := (volume / 100) * PRICING_CONFIG.hour_per_100_cubic_feet
  let complexity_hours := ai_estimate.complexity_hours_add.getD 0
  let estimated_hours := round1 (base_hours + volume_hours + complexity_hours)
  let labor_cost := round2 (movers * estimated_hours * PRICING_CONFIG.labor_rate_per_hour)
  match dictGet PRICING_CONFIG.truck_rates truck_type with
  | none => .error (.keyError truck_type)
  | some truck_base =>
  let fuel_cost := round2 (distance_km * PRICING_CONFIG.fuel_cost_per_km)
  let stairs_floors : ℤ :=
    (if !has_elevator_origin && origin_floor > 1 then origin_floor - 1 else 0) +
    (if !has_elevator_destination && destination_floor > 1 then destination_floor - 1 else 0)
  let stairs_fee := (stairs_floors : ℚ) * PRICING_CONFIG.stairs_fee_per_floor
  let materials_cost := round2 (volume * PRICING_CONFIG.packing_material_per_cubic_feet)
  let other_fees := round2 ((labor_cost + truck_base + fuel_cost) * 0.05)
  let total_cost := round2 (labor_cost + truck_base + fuel_cost + stairs_fee + materials_cost + other_fees)
  let cost_min := round2 (total_cost * 0.9)
  let cost_max := round2 (total_cost * 1.1)
  .ok { total_cost := total_cost
        cost_range := (cost_min, cost_max)
        movers_needed := movers
        truck_type := truck_type
        estimated_hours := estimated_hours
        breakdown :=
          { labor := labor_cost
            truck := truck_base
            fuel := fuel_cost
            materials := materials_cost
            stairs_fee := stairs_fee
            other := other_fees }
        special_notes := ai_estimate.special_notes.getD "" }

/-! ### Pricing (src/main.py `calculate_move_cost`, lines 225-280)

Identical to `calculate_cost` except that it introduces
`truck_total = truck_base + fuel_cost` and phrases the other-fee and total
sums through `truck_total`.  -/

def calculate_move_cost (ai_result : Option AiEstimate) (inventory : Inventory)
    (distance_km : ℚ) (origin_floor destination_floor : ℤ)
    (has_elevator_origin has_elevator_destination : Bool) :
    Except PyErr CostEstimate :=
  let ai_estimate :=
    match ai_result with
    | some d => d
    | none => fallback_estimate inventory
  let volume := inventory.total_volume_cubic_feet.getD 500
  match ai_estimate.recommended_movers with
  | none => .error (.keyError "recommended_movers")
  | some movers =>
  match ai_estimate.truck_type with
  | none => .error (.keyError "truck_type")
  | some truck_type =>
  let base_hours := PRICING_CONFIG.base_hours
  let volume_hours := (volume / 100) * PRICING_CONFIG.hour_per_100_cubic_feet
  let complexity_hours := ai_estimate.complexity_hours_add.getD 0
  let estimated_hours := round1 (base_hours + volume_hours + complexity_hours)
  let labor_cost := round2 (movers * estimated_hours * PRICING_CONFIG.labor_rate_per_hour)
  match dictGet PRICING_CONFIG.truck_rates truck_type with
  | none => .error (.keyError truck_type)
  | some truck_base =>
  let fuel_cost := round2 (distance_km * PRICING_CONFIG.fuel_cost_per_km)
  let truck_total := truck_base + fuel_cost
  let stairs_floors : ℤ :=
    (if !has_elevator_origin && origin_floor > 1 then origin_floor - 1 else 0) +
    (if !has_elevator_destination && destination_floor > 1 then destination_floor - 1 else 0)
  let stairs_fee := (stairs_floors : ℚ) * PRICING_CONFIG.stairs_fee_per_floor
  let materials_cost := round2 (volume * PRICING_CONFIG.packing_material_per_cubic_feet)
  let other_fees := round2 ((labor_cost + truck_total) * 0.05)
  let total_cost := round2 (labor_cost + truck_total + stairs_fee + materials_cost + other_fees)
  let cost_min := round2 (total_cost * 0.9)
  let cost_max := round2 (total_cost * 1.1)
  .ok { total_cost := total_cost
        cost_range := (cost_min, cost_max)
        movers_needed := movers
        truck_type := truck_type
        estimated_hours := estimated_hours
        breakdown :=
          { labor := labor_cost
            truck := truck_base
            fuel := fuel_cost
            materials := materials_cost
            stairs_fee := stairs_fee
            other := other_fees }
        special_notes := ai_estimate.special_notes.getD "" }

/-! ### Execution order of the pricing step

`calculate_cost_events` records, in source statement order, which cost
quantities are computed and where execution raises, mirroring the
straight-line body of `calculate_cost` (src/move.py lines 299-336).  -/

inductive PriceEvent where
  | computed (name : String) (value : ℚ)
  | raised (e : PyErr)
deriving DecidableEq

def calculate_cost_events (ai_result : Option AiEstimate) (inventory : Inventory)
    (distance_km : ℚ) (origin_floor destination_floor : ℤ)
    (has_elevator_origin has_elevator_destination : Bool) : List PriceEvent :=
  let ai_estimate :=
    match ai_result with
    | some d => d
    | none => fallback_estimate inventory
  let volume := inventory.total_volume_cubic_feet.getD 500
  match ai_estimate.recommended_movers with
  | none => [.raised (.keyError "recommended_movers")]
  | some movers =>
  match ai_estimate.truck_type with
  | none => [.raised (.keyError "truck_type")]
  | some truck_type =>
  let volume_hours := (volume / 100) * PRICING_CONFIG.hour_per_100_cubic_feet
  let complexity_hours := ai_estimate.complexity_hours_add.getD 0
  let estimated_hours := round1 (PRICING_CONFIG.base_hours + volume_hours + complexity_hours)
  let labor_cost := round2 (movers * estimated_hours * PRICING_CONFIG.labor_rate_per_hour)
  .computed "estimated_hours" estimated_hours ::
  .computed "labor" labor_cost ::
  match dictGet PRICING_CONFIG.truck_rates truck_type with
  | none => [.raised (.keyError truck_type)]
  | some truck_base =>
  let fuel_cost := round2 (distance_km * PRICING_CONFIG.fuel_cost_per_km)
  let stairs_floors : ℤ :=
    (if !has_elevator_origin && origin_floor > 1 then origin_floor - 1 else 0) +
    (if !has_elevator_destination && destination_floor > 1 then destination_floor - 1 else 0)
  let stairs_fee := (stairs_floors : ℚ) * PRICING_CONFIG.stairs_fee_per_floor
  let materials_cost := round2 (volume * PRICING_CONFIG.packing_material_per_cubic_feet)
  let other_fees := round2 ((labor_cost + truck_base + fuel_cost) * 0.05)
  let total_cost := round2 (labor_cost + truck_base + fuel_cost + stairs_fee + materials_cost + other_fees)
  [.computed "truck" truck_base,
   .computed "fuel" fuel_cost,
   .computed "stairs_fee" stairs_fee,
   .computed "materials" materials_cost,
   .computed "other" other_fees,
   .computed "total_cost" total_cost,
   .computed "cost_min" (round2 (total_cost * 0.9)),
   .computed "cost_max" (round2 (total_cost * 1.1))]

/-! ### Upload endpoint temp-file handling (src/move.py lines 396-407)

The filesystem is a list of existing temp-file names.  The endpoint's
upload branch creates a named temporary file with `delete=False`, copies
the uploaded bytes into it (`copy_result` is the outcome of
`shutil.copyfileobj`, which runs inside the `with` block and before the
`try`), and only then enters `try: analyze finally: os.unlink`.  -/

def analyze_video_endpoint_upload {α : Type} (fs : List String) (tmp : String)
    (copy_result : Except String Unit) (analysis_result : Except String α) :
    List String × Except String α :=
  let fs₁ := tmp :: fs
  match copy_result with
  | .error e => (fs₁, .error e)
  | .ok () =>
    match analysis_result with
    | .ok inv => (fs₁.erase tmp, .ok inv)
    | .error e => (fs₁.erase tmp, .error e)

/-! Character constants (by code point, to keep literals plain). -/

def cQuote : Char := Char.ofNat 34
def cBslash : Char := Char.ofNat 92
def cBtick : Char := Char.ofNat 96
def cNl : Char := Char.ofNat 10
def cSlash : Char := Char.ofNat 47
def cTab : Char := Char.ofNat 9
def cCr : Char := Char.ofNat 13
def cBs : Char := Char.ofNat 8
def cFf : Char := Char.ofNat 12
def cLbrack : Char := Char.ofNat 91
def cRbrack : Char := Char.ofNat 93
def cLbrace : Char := Char.ofNat 123
def cRbrace : Char := Char.ofNat 125
def cComma : Char := Char.ofNat 44
def cColon : Char := Char.ofNat 58
def cMinus : Char := Char.ofNat 45

/-- Whitespace stripped by Python `str.strip()` (the ASCII cases). -/
def isPySpace (c : Char) : Bool :=
  c.toNat = 32 || c.toNat = 9 || c.toNat = 10 || c.toNat = 13 ||
  c.toNat = 11 || c.toNat = 12

/-- Python `str.strip()`. -/
def pyStrip (l : List Char) : List Char :=
  ((l.dropWhile isPySpace).reverse.dropWhile isPySpace).reverse

/-- ASCII decimal digit. -/
def isDig (c : Char) : Bool := 48 ≤ c.toNat && c.toNat ≤ 57

/-! JSON values (numbers restricted to integers). -/

mutual
inductive JVal where
  | null
  | bool (b : Bool)
  | int (n : ℤ)
  | str (s : List Char)
  | arr (xs : JArr)
  | obj (fs : JObj)
inductive JArr where
  | nil
  | cons (v : JVal) (tl : JArr)
inductive JObj where
  | nil
  | cons (k : List Char) (v : JVal) (tl : JObj)
end

mutual
def heightV : JVal → Nat
  | .null => 1
  | .bool _ => 1
  | .int _ => 1
  | .str _ => 1
  | .arr xs => heightA xs + 1
  | .obj fs => heightM fs + 1
def heightA : JArr → Nat
  | .nil => 1
  | .cons v tl => max (heightV v) (heightA tl) + 1
def heightM : JObj → Nat
  | .nil => 1
  | .cons _ v tl => max (heightV v) (heightM tl) + 1
end

/-! Serialization. -/

def hexDig (n : Nat) : Char := if n < 10 then Char.ofNat (48 + n) else Char.ofNat (87 + n)

def escChar (c : Char) : List Char :=
  if c = cQuote then [cBslash, cQuote]
  else if c = cBslash then [cBslash, cBslash]
  else if c.toNat < 32 then [cBslash, 'u', '0', '0', hexDig (c.toNat / 16), hexDig (c.toNat % 16)]
  else [c]

def escape : List Char → List Char
  | [] => []
  | c :: r => escChar c ++ escape r

def natChars (m : Nat) : List Char :=
  if m < 10 then [Nat.digitChar m] else natChars (m / 10) ++ [Nat.digitChar (m % 10)]
  decreasing_by exact Nat.div_lt_self (by omega) (by omega)

def intChars (n : ℤ) : List Char :=
  if n < 0 then cMinus :: natChars n.natAbs else natChars n.toNat

mutual
def ser : JVal → List Char
  | .null => 'n' :: ['u', 'l', 'l']
  | .bool true => 't' :: ['r', 'u', 'e']
  | .bool false => 'f' :: ['a', 'l', 's', 'e']
  | .int n => intChars n
  | .str s => cQuote :: (escape s ++ [cQuote])
  | .arr xs => cLbrack :: (serArr xs ++ [cRbrack])
  | .obj fs => cLbrace :: (serObj fs ++ [cRbrace])
def serArr : JArr → List Char
  | .nil => []
  | .cons v .nil => ser v
  | .cons v (.cons w tl) => ser v ++ cComma :: serArr (.cons w tl)
def serObj : JObj → List Char
  | .nil => []
  | .cons k v .nil => cQuote :: (escape k ++ [cQuote]) ++ cColon :: ser v
  | .cons k v (.cons k' w tl) =>
      (cQuote :: (escape k ++ [cQuote]) ++ cColon :: ser v) ++ cComma :: serObj (.cons k' w tl)
end

/-! Parsing. -/

def hexDigVal (c : Char) : Option Nat :=
  if 48 ≤ c.toNat ∧ c.toNat ≤ 57 then some (c.toNat - 48)
  else if 97 ≤ c.toNat ∧ c.toNat ≤ 102 then some (c.toNat - 87)
  else if 65 ≤ c.toNat ∧ c.toNat ≤ 70 then some (c.toNat - 55)
  else none

def expectL : List Char → List Char → Option (List Char)
  | [], s => some s
  | _ :: _, [] => none
  | p :: ps, c :: cs => if c = p then expectL ps cs else none

def parseNatAux (acc : Nat) : List Char → Nat × List Char
  | [] => (acc, [])
  | c :: r => if isDig c then parseNatAux (acc * 10 + (c.toNat - 48)) r else (acc, c :: r)

def parseNat : List Char → Option (Nat × List Char)
  | [] => none
  | c :: r => if isDig c then some (parseNatAux (c.toNat - 48) r) else none

def parseStrBodyF : Nat → List Char → Option (List Char × List Char)
  | 0, _ => none
  | fuel + 1, l =>
    match l with
    | [] => none
    | c :: r =>
      if c = cQuote then some ([], r)
      else if c = cBslash then
        match r with
        | [] => none
        | e :: r₁ =>
          if e = cQuote then (parseStrBodyF fuel r₁).map (fun p => (cQuote :: p.1, p.2))
          else if e = cBslash then (parseStrBodyF fuel r₁).map (fun p => (cBslash :: p.1, p.2))
          else if e = cSlash then (parseStrBodyF fuel r₁).map (fun p => (cSlash :: p.1, p.2))
          else if e = 'n' then (parseStrBodyF fuel r₁).map (fun p => (cNl :: p.1, p.2))
          else if e = 't' then (parseStrBodyF fuel r₁).map (fun p => (cTab :: p.1, p.2))
          else if e = 'r' then (parseStrBodyF fuel r₁).map (fun p => (cCr :: p.1, p.2))
          else if e = 'b' then (parseStrBodyF fuel r₁).map (fun p => (cBs :: p.1, p.2))
          else if e = 'f' then (parseStrBodyF fuel r₁).map (fun p => (cFf :: p.1, p.2))
          else if e = 'u' then
            match r₁ with
            | h₁ :: h₂ :: h₃ :: h₄ :: r₂ =>
              (hexDigVal h₁).bind fun a =>
              (hexDigVal h₂).bind fun b =>
              (hexDigVal h₃).bind fun x =>
              (hexDigVal h₄).bind fun y =>
              if ((a * 16 + b) * 16 + x) * 16 + y < 55296 then
                (parseStrBodyF fuel r₂).map
                  (fun p => (Char.ofNat (((a * 16 + b) * 16 + x) * 16 + y) :: p.1, p.2))
              else none
            | _ => none
          else none
      else if 32 ≤ c.toNat then (parseStrBodyF fuel r).map (fun p => (c :: p.1, p.2))
      else none

mutual
def parseVal : Nat → List Char → Option (JVal × List Char)
  | 0, _ => none
  | fuel + 1, l =>
    match l with
    | [] => none
    | c :: r =>
      if c = 'n' then (expectL ['u', 'l', 'l'] r).map (fun r' => (.null, r'))
      else if c = 't' then (expectL ['r', 'u', 'e'] r).map (fun r' => (.bool true, r'))
      else if c = 'f' then (expectL ['a', 'l', 's', 'e'] r).map (fun r' => (.bool false, r'))
      else if c = cQuote then (parseStrBodyF r.length r).map (fun p => (.str p.1, p.2))
      else if c = cLbrack then
        match r with
        | [] => none
        | d :: r' =>
          if d = cRbrack then some (.arr .nil, r')
          else (parseElems fuel (d :: r')).map (fun p => (.arr p.1, p.2))
      else if c = cLbrace then
        match r with
        | [] => none
        | d :: r' =>
          if d = cRbrace then some (.obj .nil, r')
          else (parseMembers fuel (d :: r')).map (fun p => (.obj p.1, p.2))
      else if c = cMinus then (parseNat r).map (fun p => (.int (-(p.1 : ℤ)), p.2))
      else if isDig c then (parseNat (c :: r)).map (fun p => (.int (p.1 : ℤ), p.2))
      else none
def parseElems : Nat → List Char → Option (JArr × List Char)
  | 0, _ => none
  | fuel + 1, l =>
    (parseVal fuel l).bind (fun p =>
      match p.2 with
      | [] => none
      | d :: r' =>
        if d = cComma then (parseElems fuel r').map (fun q => (.cons p.1 q.1, q.2))
        else if d = cRbrack then some (.cons p.1 .nil, r')
        else none)
def parseMembers : Nat → List Char → Option (JObj × List Char)
  | 0, _ => none
  | fuel + 1, l =>
    match l with
    | [] => none
    | c :: r =>
      if c = cQuote then
        (parseStrBodyF r.length r).bind (fun k =>
          match k.2 with
          | [] => none
          | d :: r₂ =>
            if d = cColon then
              (parseVal fuel r₂).bind (fun p =>
                match p.2 with
                | [] => none
                | e :: r₃ =>
                  if e = cComma then
                    (parseMembers fuel r₃).map (fun q => (.cons k.1 p.1 q.1, q.2))
                  else if e = cRbrace then some (.cons k.1 p.1 .nil, r₃)
                  else none)
            else none)
      else none
end

/-- Python `json.loads` on already-stripped text: parse one value, demand
full consumption. -/
def loads (l : List Char) : Option JVal :=
  match parseVal (l.length + 1) l with
  | some (v, []) => some v
  | _ => none

/-! Code-fence cleanup (src/move.py lines 171-179 and twins). -/

def ticksPre (l : List Char) : Bool := decide (l.take 3 = [cBtick, cBtick, cBtick])

def hasTicks : List Char → Bool
  | [] => false
  | c :: r => ticksPre (c :: r) || hasTicks r

def splitTicksAuxF : Nat → List Char → List Char → List (List Char)
  | 0, acc, rest => [acc.reverse ++ rest]
  | fuel + 1, acc, l =>
    match l with
    | [] => [acc.reverse]
    | c :: r =>
      if ticksPre (c :: r) then acc.reverse :: splitTicksAuxF fuel [] ((c :: r).drop 3)
      else splitTicksAuxF fuel (c :: acc) r

/-- Python `text.split` on the three-backtick separator (non-overlapping,
left to right, empty pieces kept). -/
def pySplitTicks (l : List Char) : List (List Char) := splitTicksAuxF l.length [] l

def jsonPre (l : List Char) : Bool := decide (l.take 4 = ['j', 's', 'o', 'n'])

/-- The repository's structured-output cleanup followed by `json.loads`:
strip, remove one fenced block (taking piece 1 of the split on triple
backticks, dropping a `json` tag, stripping again), then parse. -/
def repoParse (raw : List Char) : Option JVal :=
  let t := pyStrip raw
  if ticksPre t then
    let piece := (pySplitTicks t).getD 1 []
    let piece₂ := if jsonPre piece then piece.drop 4 else piece
    loads (pyStrip piece₂)
  else loads t

/-- Wrapping a payload in a leading three-backtick `json` fence line and a
trailing three-backtick fence. -/
def fenceJson (s : List Char) : List Char :=
  [cBtick, cBtick, cBtick, 'j', 's', 'o', 'n', cNl] ++ s ++ [cNl, cBtick, cBtick, cBtick]

/-- The rest of the input after a serialized number must not begin with a
digit (inside serialized JSON it begins with a comma or a closing
delimiter, or is empty). -/
def restOk : List Char → Bool
  | [] => true
  | c :: _ => !isDig c

/-! ## Claim theorems -/

/-- C2: with inventory volume 800, no special handling, staffing
movers=3 / truck medium / complexity 1.5, and move parameters 45 km,
floors 3 to 2, elevator only at destination, the pricing step returns
estimated_hours 9.5, labor 997.5, truck 120, fuel 22.5, stairs fee 50,
materials 160, other 57, total 1407 and range [1266.3, 1547.7]. -/
theorem C2_stage2_arithmetic_example :
    calculate_cost (some ⟨some 3, some "medium", some 1.5, some ""⟩)
      ⟨some 800, some []⟩ 45 3 2 false true =
    .ok { total_cost := 1407
          cost_range := (1266.3, 1547.7)
          movers_needed := 3
          truck_type := "medium"
          estimated_hours := 9.5
          breakdown := { labor := 997.5, truck := 120, fuel := 22.5
                         materials := 160, stairs_fee := 50, other := 57 }
          special_notes := "" } := by
  have hd : dictGet PRICING_CONFIG.truck_rates "medium" = some 120 := rfl
  simp only [calculate_cost, hd]
  norm_num [round1, round2, rne, PRICING_CONFIG]

/-- C4 counterexample: at volume 850 with one special-handling item the
fallback picks the medium truck (850 < 900), not the large one the claim
names. -/
theorem C4_counterexample :
    (fallback_estimate ⟨some 850, some ["piano"]⟩).truck_type = some "medium" ∧
    (some "medium" : Option String) ≠ some "large" := by
  constructor
  · norm_num [fallback_estimate]
  · simp

/-- C4 amended: for an inventory with volume 850 and special handling
["piano"], the fallback yields movers 4, truck_type "medium" and
complexity_hours_add 0.5. -/
theorem C4_fallback_850_piano :
    fallback_estimate ⟨some 850, some ["piano"]⟩ =
      ⟨some 4, some "medium", some 0.5, some ""⟩ := by
  norm_num [fallback_estimate]

/-- C3: when the Stage-2 call or parse fails (`ai_result = none`), the
staffing recommendation used by the pricing step is the deterministic
fallback rule, which coincides with the rule as the spec states it
(movers 2/3/4 below 400/800, truck small/medium/large below 400/900,
half an hour per special-handling item, empty notes); being a pure
function of the inventory it is reproducible. -/
theorem C3_fallback_is_spec_rule :
    ∀ inventory : Inventory,
      fallback_estimate inventory = fallback_rule_spec inventory ∧
      ∀ (distance_km : ℚ) (origin_floor destination_floor : ℤ)
        (has_elevator_origin has_elevator_destination : Bool),
        calculate_cost none inventory distance_km origin_floor destination_floor
            has_elevator_origin has_elevator_destination =
          calculate_cost (some (fallback_estimate inventory)) inventory distance_km
            origin_floor destination_floor has_elevator_origin has_elevator_destination := by
  intro inv
  refine ⟨?_, fun _ _ _ _ _ => rfl⟩
  simp [fallback_estimate, fallback_rule_spec, mul_comm]

/-- C8: Stage-2 inference failures are not fatal: on the fallback path the
pricing step always returns a cost estimate, for every inventory and every
move parameter. -/
theorem C8_fallback_never_fails :
    ∀ (inventory : Inventory) (distance_km : ℚ)
      (origin_floor destination_floor : ℤ)
      (has_elevator_origin has_elevator_destination : Bool),
      ∃ est : CostEstimate,
        calculate_cost none inventory distance_km origin_floor destination_floor
          has_elevator_origin has_elevator_destination = .ok est := by
  intro inv d o f eo ed
  have hs : dictGet PRICING_CONFIG.truck_rates "small" = some 75 := rfl
  have hm : dictGet PRICING_CONFIG.truck_rates "medium" = some 120 := rfl
  have hl : dictGet PRICING_CONFIG.truck_rates "large" = some 180 := rfl
  by_cases h1 : (inv.total_volume_cubic_feet.getD 500) < 400
  · exact ⟨_, by simp only [calculate_cost, fallback_estimate, if_pos h1, hs]; rfl⟩
  · by_cases h2 : (inv.total_volume_cubic_feet.getD 500) < 900
    · exact ⟨_, by simp only [calculate_cost, fallback_estimate, if_neg h1, if_pos h2, hm]; rfl⟩
    · exact ⟨_, by simp only [calculate_cost, fallback_estimate, if_neg h1, if_neg h2, hl]; rfl⟩

/-- C1: every estimate the pricing step returns satisfies
total_cost = round(labor + truck + fuel + stairs_fee + materials + other, 2)
over its own breakdown, and cost_range = [round(total*0.9,2), round(total*1.1,2)]. -/
theorem C1_total_and_range_invariant
    (ai_result : Option AiEstimate) (inventory : Inventory)
    (distance_km : ℚ) (origin_floor destination_floor : ℤ)
    (has_elevator_origin has_elevator_destination : Bool) (est : CostEstimate)
    (h : calculate_cost ai_result inventory distance_km origin_floor destination_floor
           has_elevator_origin has_elevator_destination = .ok est) :
    est.total_cost =
      round2 (est.breakdown.labor + est.breakdown.truck + est.breakdown.fuel +
              est.breakdown.stairs_fee + est.breakdown.materials + est.breakdown.other) ∧
    est.cost_range = (round2 (est.total_cost * 0.9), round2 (est.total_cost * 1.1)) := by
  simp only [calculate_cost] at h
  split at h
  · simp at h
  · split at h
    · simp at h
    · split at h
      · simp at h
      · injection h with h2
        subst h2
        exact ⟨rfl, rfl⟩

/-- C1 witness: the invariant holds at the concrete staffing and move
parameters of the spec's worked example. -/
theorem C1_total_and_range_invariant_witness :
    ∃ est : CostEstimate,
      calculate_cost (some ⟨some 3, some "medium", some 1.5, some ""⟩)
        ⟨some 800, some []⟩ 45 3 2 false true = .ok est ∧
      est.total_cost =
        round2 (est.breakdown.labor + est.breakdown.truck + est.breakdown.fuel +
                est.breakdown.stairs_fee + est.breakdown.materials + est.breakdown.other) ∧
      est.cost_range = (round2 (est.total_cost * 0.9), round2 (est.total_cost * 1.1)) := by
  have h : calculate_cost (some ⟨some 3, some "medium", some 1.5, some ""⟩)
      ⟨some 800, some []⟩ 45 3 2 false true =
      .ok { total_cost := 1407
            cost_range := (1266.3, 1547.7)
            movers_needed := 3
            truck_type := "medium"
            estimated_hours := 9.5
            breakdown := { labor := 997.5, truck := 120, fuel := 22.5
                           materials := 160, stairs_fee := 50, other := 57 }
            special_notes := "" } := by
    have hd : dictGet PRICING_CONFIG.truck_rates "medium" = some 120 := rfl
    simp only [calculate_cost, hd]
    norm_num [round1, round2, rne, PRICING_CONFIG]
  exact ⟨_, h, C1_total_and_range_invariant _ _ _ _ _ _ _ _ h⟩

/-- The two pricing implementations agree on every input: `calculate_move_cost`
only re-associates `labor + truck_total` where `calculate_cost` writes
`labor + truck_base + fuel_cost`. -/
lemma calc_cost_variants_agree (ai_result : Option AiEstimate) (inventory : Inventory)
    (distance_km : ℚ) (origin_floor destination_floor : ℤ)
    (has_elevator_origin has_elevator_destination : Bool) :
    calculate_move_cost ai_result inventory distance_km origin_floor destination_floor
        has_elevator_origin has_elevator_destination =
      calculate_cost ai_result inventory distance_km origin_floor destination_floor
        has_elevator_origin has_elevator_destination := by
  simp only [calculate_cost, calculate_move_cost]
  split
  · rfl
  · split
    · rfl
    · split
      · rfl
      · simp only [← add_assoc]

/-- C9 counterexample: the claim asserts the two other-fee computations
disagree somewhere; in fact no input separates them. -/
theorem C9_counterexample :
    ¬ ∃ (ai_result : Option AiEstimate) (inventory : Inventory) (d : ℚ) (o f : ℤ)
        (eo ed : Bool) (e₁ e₂ : CostEstimate),
        calculate_cost ai_result inventory d o f eo ed = .ok e₁ ∧
        calculate_move_cost ai_result inventory d o f eo ed = .ok e₂ ∧
        e₁.breakdown.other ≠ e₂.breakdown.other := by
  rintro ⟨ai, inv, d, o, f, eo, ed, e₁, e₂, h₁, h₂, hne⟩
  rw [calc_cost_variants_agree, h₁] at h₂
  injection h₂ with h
  exact hne (by rw [h])

/-- C9 amended: the other-fees computation does not differ between the two
call sites: `(labor + truck_total) = (labor + truck_base + fuel)` exactly, so
`calculate_move_cost` and `calculate_cost` return identical results (same
other-fee component, same everything) on all inputs. -/
theorem C9_other_fees_variants_agree :
    ∀ (ai_result : Option AiEstimate) (inventory : Inventory) (d : ℚ) (o f : ℤ)
      (eo ed : Bool),
      calculate_move_cost ai_result inventory d o f eo ed =
        calculate_cost ai_result inventory d o f eo ed :=
  calc_cost_variants_agree

/-- C5 counterexample: with truck_type "xl" the pricing step does fail, but
with an untyped lookup KeyError, and only after `estimated_hours` and
`labor` have been computed — not before any cost component. -/
theorem C5_counterexample :
    calculate_cost (some ⟨some 3, some "xl", some 1.5, some ""⟩)
        ⟨some 800, some []⟩ 45 3 2 false true = .error (.keyError "xl") ∧
    calculate_cost_events (some ⟨some 3, some "xl", some 1.5, some ""⟩)
        ⟨some 800, some []⟩ 45 3 2 false true =
      [.computed "estimated_hours" 9.5, .computed "labor" 997.5,
       .raised (.keyError "xl")] := by
  constructor
  · rfl
  · have hd : dictGet PRICING_CONFIG.truck_rates "xl" = none := rfl
    simp only [calculate_cost_events, hd]
    norm_num [round1, round2, rne, PRICING_CONFIG]

/-- C5 amended: an unknown truck tier makes the pricing step fail at the
truck-rate lookup with a KeyError carrying the unknown label (the code has
no typed ConfigError), after `estimated_hours` and `labor` have already
been computed and before the remaining components. -/
theorem C5_unknown_truck_raises_after_labor
    (ai : AiEstimate) (inventory : Inventory) (d : ℚ) (o f : ℤ) (eo ed : Bool)
    (movers : ℚ) (tt : String)
    (hm : ai.recommended_movers = some movers)
    (ht : ai.truck_type = some tt)
    (hd : dictGet PRICING_CONFIG.truck_rates tt = none) :
    calculate_cost (some ai) inventory d o f eo ed = .error (.keyError tt) ∧
    ∃ eh lc : ℚ,
      calculate_cost_events (some ai) inventory d o f eo ed =
        [.computed "estimated_hours" eh, .computed "labor" lc,
         .raised (.keyError tt)] := by
  constructor
  · simp only [calculate_cost, hm, ht, hd]
  · exact ⟨_, _, by simp only [calculate_cost_events, hm, ht, hd]; rfl⟩

/-- C5 witness: the amended statement applied at truck_type "xl". -/
theorem C5_unknown_truck_witness :
    dictGet PRICING_CONFIG.truck_rates "xl" = none ∧
    (calculate_cost (some ⟨some 3, some "xl", some 1.5, some ""⟩)
        ⟨some 800, some []⟩ 45 3 2 false true = .error (.keyError "xl") ∧
     ∃ eh lc : ℚ,
       calculate_cost_events (some ⟨some 3, some "xl", some 1.5, some ""⟩)
           ⟨some 800, some []⟩ 45 3 2 false true =
         [.computed "estimated_hours" eh, .computed "labor" lc,
          .raised (.keyError "xl")]) :=
  ⟨rfl, C5_unknown_truck_raises_after_labor _ _ _ _ _ _ _ _ _ rfl rfl rfl⟩

/-- C7 counterexample: a staffing response missing both
`complexity_hours_add` and `special_notes` does not fail: the pricing step
silently defaults them (complexity to 0, so estimated_hours is 8, and
notes to the empty string) and returns an estimate. -/
theorem C7_counterexample :
    calculate_cost (some ⟨some 3, some "medium", none, none⟩)
        ⟨some 800, some []⟩ 45 3 2 false true =
    .ok { total_cost := 1241.62
          cost_range := (1117.46, 1365.78)
          movers_needed := 3
          truck_type := "medium"
          estimated_hours := 8
          breakdown := { labor := 840, truck := 120, fuel := 22.5
                         materials := 160, stairs_fee := 50, other := 49.12 }
          special_notes := "" } := by
  have hd : dictGet PRICING_CONFIG.truck_rates "medium" = some 120 := rfl
  simp only [calculate_cost, hd]
  norm_num [round1, round2, rne, PRICING_CONFIG]

/-- C7 amended: missing `recommended_movers` or `truck_type` raise an
untyped KeyError (no typed SchemaError exists); a missing
`complexity_hours_add` silently defaults to 0 and a missing
`special_notes` to the empty string, exactly as if those values had been
supplied. -/
theorem C7_missing_field_behaviour
    (mv : ℚ) (tt : String) (inventory : Inventory) (d : ℚ) (o f : ℤ) (eo ed : Bool) :
    (∀ (t : Option String) (c : Option ℚ) (s : Option String),
        calculate_cost (some ⟨none, t, c, s⟩) inventory d o f eo ed =
          .error (.keyError "recommended_movers")) ∧
    (∀ (m : ℚ) (c : Option ℚ) (s : Option String),
        calculate_cost (some ⟨some m, none, c, s⟩) inventory d o f eo ed =
          .error (.keyError "truck_type")) ∧
    calculate_cost (some ⟨some mv, some tt, none, none⟩) inventory d o f eo ed =
      calculate_cost (some ⟨some mv, some tt, some 0, some ""⟩) inventory d o f eo ed :=
  ⟨fun _ _ _ => rfl, fun _ _ _ => rfl, rfl⟩

/-- C10 counterexample: when the staging copy itself raises (before the
try/finally around the analysis), the temporary file is left on disk at
exit, so not every exit path deletes it. -/
theorem C10_counterexample :
    (analyze_video_endpoint_upload (α := Unit) [] "tmp.mp4"
        (.error "client disconnected") (.ok ())).1 = ["tmp.mp4"] ∧
    (["tmp.mp4"] : List String) ≠ [] := by
  exact ⟨rfl, by simp⟩

/-- C10 amended: once the staging copy has succeeded, the temporary file is
deleted on both analysis outcomes (the try/finally covers success and
failure); if the copy itself raises, the file is leaked. -/
theorem C10_temp_file_cleanup {α : Type} :
    ∀ (fs : List String) (tmp : String) (r : Except String α),
      (analyze_video_endpoint_upload fs tmp (.ok ()) r).1 = fs ∧
      ∀ e : String,
        (analyze_video_endpoint_upload fs tmp (.error e) r).1 = tmp :: fs := by
  intro fs tmp r
  refine ⟨?_, fun e => rfl⟩
  cases r <;> simp [analyze_video_endpoint_upload]

/-! Digit and decimal-representation lemmas. -/

lemma digitChar_isDig : ∀ m, m < 10 → isDig (Nat.digitChar m) = true := by decide

lemma digitChar_val : ∀ m, m < 10 → (Nat.digitChar m).toNat - 48 = m := by decide

lemma natChars_ne_nil (m : Nat) : natChars m ≠ [] := by
  rw [natChars]; split <;> simp

lemma natChars_head (m : Nat) : ∃ d r, natChars m = d :: r ∧ isDig d = true := by
  induction m using natChars.induct with
  | case1 m h => exact ⟨_, _, by rw [natChars, if_pos h], digitChar_isDig m h⟩
  | case2 m h ih =>
    obtain ⟨d, r, hdr, hd⟩ := ih
    exact ⟨d, r ++ [Nat.digitChar (m % 10)], by rw [natChars, if_neg h, hdr]; simp, hd⟩

lemma natChars_last (m : Nat) : ∃ r d, natChars m = r ++ [d] ∧ isDig d = true := by
  induction m using natChars.induct with
  | case1 m h => exact ⟨[], _, by rw [natChars, if_pos h]; rfl, digitChar_isDig m h⟩
  | case2 m h _ih =>
    exact ⟨natChars (m / 10), _, by rw [natChars, if_neg h],
      digitChar_isDig _ (Nat.mod_lt _ (by omega))⟩

lemma natChars_digits (m : Nat) : ∀ c ∈ natChars m, isDig c = true := by
  induction m using natChars.induct with
  | case1 m h =>
    intro c hc
    rw [natChars, if_pos h] at hc
    simp at hc
    subst hc
    exact digitChar_isDig m h
  | case2 m h ih =>
    intro c hc
    rw [natChars, if_neg h] at hc
    rcases List.mem_append.mp hc with h₁ | h₂
    · exact ih c h₁
    · simp at h₂
      subst h₂
      exact digitChar_isDig _ (Nat.mod_lt _ (by omega))

lemma natChars_foldl (m : Nat) : ∀ acc : Nat,
    (natChars m).foldl (fun a c => a * 10 + (c.toNat - 48)) acc =
      acc * 10 ^ (natChars m).length + m := by
  induction m using natChars.induct with
  | case1 m h =>
    intro acc
    rw [natChars, if_pos h]
    simp [List.foldl, digitChar_val m h]
  | case2 m h ih =>
    intro acc
    rw [natChars, if_neg h]
    rw [List.foldl_append, ih, List.length_append]
    simp [List.foldl, digitChar_val (m % 10) (Nat.mod_lt _ (by omega))]
    calc (acc * 10 ^ (natChars (m / 10)).length + m / 10) * 10 + m % 10
        = acc * (10 ^ (natChars (m / 10)).length * 10) + (10 * (m / 10) + m % 10) := by ring
      _ = acc * 10 ^ ((natChars (m / 10)).length + 1) + m := by
          rw [Nat.div_add_mod, pow_succ]

lemma parseNatAux_digits :
    ∀ (ds : List Char), (∀ c ∈ ds, isDig c = true) →
      ∀ (acc : Nat) (rest : List Char), restOk rest = true →
        parseNatAux acc (ds ++ rest) =
          (ds.foldl (fun a c => a * 10 + (c.toNat - 48)) acc, rest) := by
  intro ds
  induction ds with
  | nil =>
    intro _ acc rest hr
    cases rest with
    | nil => rfl
    | cons c r =>
      have : isDig c = false := by simpa [restOk] using hr
      simp [parseNatAux, this]
  | cons d ds ih =>
    intro hds acc rest hr
    have hd : isDig d = true := hds d (by simp)
    simp only [List.cons_append, parseNatAux, hd, if_pos, List.foldl]
    exact ih (fun c hc => hds c (by simp [hc])) _ rest hr

lemma parseNat_natChars (m : Nat) (rest : List Char) (hr : restOk rest = true) :
    parseNat (natChars m ++ rest) = some (m, rest) := by
  obtain ⟨d, ds, hds, hd⟩ := natChars_head m
  have hdig : ∀ c ∈ ds, isDig c = true := fun c hc =>
    natChars_digits m c (by rw [hds]; simp [hc])
  have hfold := natChars_foldl m 0
  rw [hds] at hfold
  simp [List.foldl] at hfold
  rw [hds, List.cons_append]
  simp only [parseNat, hd, if_pos]
  rw [parseNatAux_digits ds hdig _ rest hr]
  simp [hfold]

/-! String escaping round-trip. -/

lemma hexDigVal_hexDig : ∀ k, k < 16 → hexDigVal (hexDig k) = some k := by decide

lemma escape_cons (c : Char) (s : List Char) :
    escape (c :: s) = escChar c ++ escape s := rfl

lemma parseStrBodyF_escape (s : List Char) : ∀ (fuel : Nat) (rest : List Char),
    (escape s).length < fuel →
    parseStrBodyF fuel (escape s ++ cQuote :: rest) = some (s, rest) := by
  induction s with
  | nil =>
    intro fuel rest hf
    cases fuel with
    | zero => simp [escape] at hf
    | succ f => simp [parseStrBodyF, escape]
  | cons c s ih =>
    intro fuel rest hf
    by_cases hq : c = cQuote
    · subst hq
      have hlen : (escape (cQuote :: s)).length = (escape s).length + 2 := by
        simp [escape_cons, escChar]
      cases fuel with
      | zero => omega
      | succ f =>
        have hf' : (escape s).length < f := by omega
        rw [escape_cons, show escChar cQuote = [cBslash, cQuote] from rfl]
        simp only [List.cons_append, List.append_assoc, List.nil_append]
        rw [show parseStrBodyF (f + 1) (cBslash :: cQuote :: (escape s ++ cQuote :: rest)) =
            (parseStrBodyF f (escape s ++ cQuote :: rest)).map
              (fun p => (cQuote :: p.1, p.2)) from rfl]
        rw [ih f rest hf']
        rfl
    · by_cases hb : c = cBslash
      · subst hb
        have hlen : (escape (cBslash :: s)).length = (escape s).length + 2 := by
          simp [escape_cons, escChar, cBslash, cQuote, Char.ofNat]
        cases fuel with
        | zero => omega
        | succ f =>
          have hf' : (escape s).length < f := by omega
          rw [escape_cons, show escChar cBslash = [cBslash, cBslash] from rfl]
          simp only [List.cons_append, List.append_assoc, List.nil_append]
          rw [show parseStrBodyF (f + 1) (cBslash :: cBslash :: (escape s ++ cQuote :: rest)) =
              (parseStrBodyF f (escape s ++ cQuote :: rest)).map
                (fun p => (cBslash :: p.1, p.2)) from rfl]
          rw [ih f rest hf']
          rfl
      · by_cases hlt : c.toNat < 32
        · have hesc : escChar c =
              [cBslash, 'u', '0', '0', hexDig (c.toNat / 16), hexDig (c.toNat % 16)] := by
            simp [escChar, hq, hb, hlt]
          have hlen : (escape (c :: s)).length = (escape s).length + 6 := by
            simp [escape_cons, hesc]
          cases fuel with
          | zero => omega
          | succ f =>
            have hf' : (escape s).length < f := by omega
            rw [escape_cons, hesc]
            simp only [List.cons_append, List.append_assoc, List.nil_append]
            rw [show parseStrBodyF (f + 1)
                (cBslash :: 'u' :: '0' :: '0' :: hexDig (c.toNat / 16) ::
                  hexDig (c.toNat % 16) :: (escape s ++ cQuote :: rest)) =
              (hexDigVal (hexDig (c.toNat / 16))).bind (fun x =>
                (hexDigVal (hexDig (c.toNat % 16))).bind (fun y =>
                  if ((0 * 16 + 0) * 16 + x) * 16 + y < 55296 then
                    (parseStrBodyF f (escape s ++ cQuote :: rest)).map
                      (fun p => (Char.ofNat (((0 * 16 + 0) * 16 + x) * 16 + y) :: p.1, p.2))
                  else none)) from rfl]
            rw [hexDigVal_hexDig (c.toNat / 16) (by omega),
                hexDigVal_hexDig (c.toNat % 16) (by omega)]
            simp only [Option.some_bind]
            have hval : ((0 * 16 + 0) * 16 + c.toNat / 16) * 16 + c.toNat % 16 = c.toNat := by
              omega
            rw [hval, if_pos (by omega : c.toNat < 55296), ih f rest hf',
              Char.ofNat_toNat]
            rfl
        · have hesc : escChar c = [c] := by simp [escChar, hq, hb, hlt]
          have hlen : (escape (c :: s)).length = (escape s).length + 1 := by
            simp [escape_cons, hesc]
          cases fuel with
          | zero => omega
          | succ f =>
            have hf' : (escape s).length < f := by omega
            rw [escape_cons, hesc]
            simp only [List.cons_append, List.append_assoc, List.nil_append]
            simp only [parseStrBodyF]
            rw [if_neg hq, if_neg hb, if_pos (by omega : 32 ≤ c.toNat), ih f rest hf']
            rfl

/-! Shape of serialized output: first and last characters. -/

lemma isDig_not_space {c : Char} (h : isDig c = true) : isPySpace c = false := by
  simp [isDig] at h
  simp [isPySpace]
  omega

lemma isDig_ne_btick {c : Char} (h : isDig c = true) : c ≠ cBtick := by
  intro hc
  subst hc
  simp [isDig, cBtick, Char.ofNat] at h

lemma ser_head (v : JVal) : ∃ c r, ser v = c :: r ∧
    (c = 'n' ∨ c = 't' ∨ c = 'f' ∨ c = cQuote ∨ c = cLbrack ∨ c = cLbrace ∨
     c = cMinus ∨ isDig c = true) := by
  cases v with
  | null => exact ⟨'n', _, rfl, by tauto⟩
  | bool b =>
    cases b with
    | true => exact ⟨'t', _, rfl, by tauto⟩
    | false => exact ⟨'f', _, rfl, by tauto⟩
  | int n =>
    by_cases hn : n < 0
    · exact ⟨cMinus, natChars n.natAbs, by simp [ser, intChars, hn], by tauto⟩
    · obtain ⟨d, r, hdr, hd⟩ := natChars_head n.toNat
      exact ⟨d, r, by simp [ser, intChars, hn, hdr], by tauto⟩
  | str s => exact ⟨cQuote, _, rfl, by tauto⟩
  | arr xs => exact ⟨cLbrack, _, rfl, by tauto⟩
  | obj fs => exact ⟨cLbrace, _, rfl, by tauto⟩

lemma ser_last (v : JVal) : ∃ r c, ser v = r ++ [c] ∧ isPySpace c = false := by
  cases v with
  | null => exact ⟨['n', 'u', 'l'], 'l', rfl, by decide⟩
  | bool b =>
    cases b with
    | true => exact ⟨['t', 'r', 'u'], 'e', rfl, by decide⟩
    | false => exact ⟨['f', 'a', 'l', 's'], 'e', rfl, by decide⟩
  | int n =>
    by_cases hn : n < 0
    · obtain ⟨r, d, hrd, hd⟩ := natChars_last n.natAbs
      exact ⟨cMinus :: r, d, by simp [ser, intChars, hn, hrd], isDig_not_space hd⟩
    · obtain ⟨r, d, hrd, hd⟩ := natChars_last n.toNat
      exact ⟨r, d, by simp [ser, intChars, hn, hrd], isDig_not_space hd⟩
  | str s => exact ⟨cQuote :: escape s, cQuote, by simp [ser], by decide⟩
  | arr xs => exact ⟨cLbrack :: serArr xs, cRbrack, by simp [ser], by decide⟩
  | obj fs => exact ⟨cLbrace :: serObj fs, cRbrace, by simp [ser], by decide⟩

lemma ser_ne_nil (v : JVal) : ser v ≠ [] := by
  obtain ⟨c, r, h, -⟩ := ser_head v
  simp [h]

/-! Python strip lemmas. -/

lemma pyStrip_no_space (l : List Char)
    (h1 : ∀ c, l.head? = some c → isPySpace c = false)
    (h2 : ∀ c, l.getLast? = some c → isPySpace c = false) :
    pyStrip l = l := by
  cases l with
  | nil => rfl
  | cons c m =>
    have hc := h1 c rfl
    unfold pyStrip
    rw [List.dropWhile_cons, if_neg (by simp [hc])]
    obtain ⟨x, xs, hx⟩ := List.exists_cons_of_ne_nil
      (l := (c :: m).reverse) (by simp)
    have hxlast : (c :: m).getLast? = some x := by
      rw [← List.head?_reverse, hx]; rfl
    rw [hx, List.dropWhile_cons, if_neg (by simp [h2 x hxlast]), ← hx,
      List.reverse_reverse]

lemma pyStrip_nl_wrap (l : List Char) (hne : l ≠ [])
    (h1 : ∀ c, l.head? = some c → isPySpace c = false)
    (h2 : ∀ c, l.getLast? = some c → isPySpace c = false) :
    pyStrip (cNl :: (l ++ [cNl])) = l := by
  obtain ⟨c, m, rfl⟩ := List.exists_cons_of_ne_nil hne
  have hc := h1 c rfl
  unfold pyStrip
  rw [List.dropWhile_cons, if_pos (by decide), List.cons_append,
    List.dropWhile_cons, if_neg (by simp [hc])]
  rw [show (c :: (m ++ [cNl])).reverse = cNl :: (c :: m).reverse by simp]
  rw [List.dropWhile_cons, if_pos (by decide)]
  obtain ⟨x, xs, hx⟩ := List.exists_cons_of_ne_nil
    (l := (c :: m).reverse) (by simp)
  have hxlast : (c :: m).getLast? = some x := by
    rw [← List.head?_reverse, hx]; rfl
  rw [hx, List.dropWhile_cons, if_neg (by simp [h2 x hxlast]), ← hx,
    List.reverse_reverse]

/-! Triple-backtick detection and split lemmas. -/

lemma ticksPre_eq_of_take (l₁ l₂ : List Char) (h : l₁.take 3 = l₂.take 3) :
    ticksPre l₁ = ticksPre l₂ := by
  unfold ticksPre
  rw [h]

lemma ticksPre_cons_false (c : Char) (r : List Char) (h : c ≠ cBtick) :
    ticksPre (c :: r) = false := by
  simp only [ticksPre, decide_eq_false_iff_not]
  intro heq
  rw [List.take_succ_cons] at heq
  exact h (List.cons.injEq .. ▸ heq).1

lemma hasTicks_cons (c : Char) (r : List Char) :
    hasTicks (c :: r) = (ticksPre (c :: r) || hasTicks r) := rfl

lemma hasTicks_cons_false (c : Char) (r : List Char) (hc : c ≠ cBtick)
    (hr : hasTicks r = false) : hasTicks (c :: r) = false := by
  rw [hasTicks_cons, ticksPre_cons_false c r hc, hr]
  rfl

lemma ticksPre_nil : ticksPre [] = false := by decide

lemma ticksPre_one (c : Char) : ticksPre [c] = false := by
  simp only [ticksPre, decide_eq_false_iff_not]
  intro heq
  simp at heq

lemma ticksPre_two (c d : Char) : ticksPre [c, d] = false := by
  simp only [ticksPre, decide_eq_false_iff_not]
  intro heq
  simp at heq

lemma ticksPre_false_of_second (c d : Char) (r : List Char) (hd : d ≠ cBtick) :
    ticksPre (c :: d :: r) = false := by
  simp only [ticksPre, decide_eq_false_iff_not]
  intro heq
  rw [List.take_succ_cons, List.take_succ_cons] at heq
  injection heq with h1 h2
  injection h2 with h3 h4
  exact hd h3

lemma ticksPre_false_of_third (c d e : Char) (r : List Char) (he : e ≠ cBtick) :
    ticksPre (c :: d :: e :: r) = false := by
  simp only [ticksPre, decide_eq_false_iff_not]
  intro heq
  rw [List.take_succ_cons, List.take_succ_cons, List.take_succ_cons] at heq
  injection heq with h1 h2
  injection h2 with h3 h4
  injection h4 with h5 h6
  exact he h5

lemma hasTicks_append_false (S tail : List Char) (hS : hasTicks S = false)
    (ht : hasTicks tail = false)
    (hhead : ∀ c, tail.head? = some c → c ≠ cBtick) :
    hasTicks (S ++ tail) = false := by
  induction S with
  | nil => simpa using ht
  | cons c S ih =>
    rw [hasTicks_cons] at hS
    obtain ⟨hc, hS'⟩ := Bool.or_eq_false_iff.mp hS
    rw [List.cons_append, hasTicks_cons]
    refine Bool.or_eq_false_iff.mpr ⟨?_, ih hS'⟩
    cases S with
    | nil =>
      cases tail with
      | nil => exact ticksPre_one c
      | cons d td => exact ticksPre_false_of_second c d td (hhead d rfl)
    | cons d S' =>
      cases S' with
      | nil =>
        cases tail with
        | nil => exact ticksPre_two c d
        | cons e te => exact ticksPre_false_of_third c d e te (hhead e rfl)
      | cons e S'' =>
        refine (ticksPre_eq_of_take _ (c :: d :: e :: S'') ?_).trans hc
        simp [List.take]

lemma splitTicksAuxF_nil (f : Nat) (acc : List Char) :
    splitTicksAuxF (f + 1) acc [] = [acc.reverse] := rfl

lemma splitTicksAuxF_ticks (f : Nat) (acc rest : List Char) :
    splitTicksAuxF (f + 1) acc (cBtick :: cBtick :: cBtick :: rest) =
      acc.reverse :: splitTicksAuxF f [] rest := by
  have hp : ticksPre (cBtick :: cBtick :: cBtick :: rest) = true := by
    simp [ticksPre, List.take]
  simp [splitTicksAuxF, hp]

lemma splitTicksAuxF_step (f : Nat) (acc : List Char) (c : Char) (r : List Char)
    (h : ticksPre (c :: r) = false) :
    splitTicksAuxF (f + 1) acc (c :: r) = splitTicksAuxF f (c :: acc) r := by
  simp [splitTicksAuxF, h]

lemma splitTicksAuxF_no_ticks :
    ∀ (m : List Char), hasTicks (m ++ [cBtick, cBtick]) = false →
      ∀ (f : Nat) (acc rest : List Char),
        splitTicksAuxF (m.length + (f + 1)) acc
            (m ++ (cBtick :: cBtick :: cBtick :: rest)) =
          (acc.reverse ++ m) :: splitTicksAuxF f [] rest := by
  intro m
  induction m with
  | nil =>
    intro _ f acc rest
    simp only [List.nil_append, List.length_nil, Nat.zero_add]
    rw [splitTicksAuxF_ticks]
    simp
  | cons c m ih =>
    intro h f acc rest
    rw [List.cons_append, hasTicks_cons] at h
    obtain ⟨hc, hm⟩ := Bool.or_eq_false_iff.mp h
    have htp : ticksPre (c :: (m ++ (cBtick :: cBtick :: cBtick :: rest))) = false := by
      refine (ticksPre_eq_of_take _ (c :: (m ++ [cBtick, cBtick])) ?_).trans hc
      have hassoc : c :: (m ++ (cBtick :: cBtick :: cBtick :: rest)) =
          (c :: (m ++ [cBtick, cBtick])) ++ (cBtick :: rest) := by simp
      rw [hassoc, List.take_append_of_le_length (by simp)]
    have hlen : (c :: m).length + (f + 1) = (m.length + (f + 1)) + 1 := by
      simp [List.length_cons]; omega
    rw [List.cons_append, hlen, splitTicksAuxF_step _ _ _ _ htp, ih hm f (c :: acc) rest]
    simp

lemma pySplitTicks_fence (m : List Char)
    (h : hasTicks (m ++ [cBtick, cBtick]) = false) :
    pySplitTicks (cBtick :: cBtick :: cBtick :: (m ++ [cBtick, cBtick, cBtick])) =
      [[], m, []] := by
  unfold pySplitTicks
  have hlen : (cBtick :: cBtick :: cBtick :: (m ++ [cBtick, cBtick, cBtick])).length =
      (m.length + 5) + 1 := by simp
  rw [hlen, splitTicksAuxF_ticks]
  have hm : m ++ [cBtick, cBtick, cBtick] = m ++ (cBtick :: cBtick :: cBtick :: []) := rfl
  rw [hm, show m.length + 5 = m.length + (4 + 1) from by omega,
    splitTicksAuxF_no_ticks m h 4 [] []]
  rfl

/-! Parser step equations. -/

lemma parseVal_quote (f : Nat) (X : List Char) :
    parseVal (f + 1) (cQuote :: X) =
      (parseStrBodyF X.length X).map (fun p => (.str p.1, p.2)) := rfl

lemma parseVal_lbrack (f : Nat) (X : List Char) :
    parseVal (f + 1) (cLbrack :: X) =
      (match X with
       | [] => none
       | d :: r' =>
         if d = cRbrack then some (.arr .nil, r')
         else (parseElems f (d :: r')).map (fun p => (.arr p.1, p.2))) := rfl

lemma parseVal_lbrace (f : Nat) (X : List Char) :
    parseVal (f + 1) (cLbrace :: X) =
      (match X with
       | [] => none
       | d :: r' =>
         if d = cRbrace then some (.obj .nil, r')
         else (parseMembers f (d :: r')).map (fun p => (.obj p.1, p.2))) := rfl

lemma parseVal_minus (f : Nat) (X : List Char) :
    parseVal (f + 1) (cMinus :: X) =
      (parseNat X).map (fun p => (.int (-(p.1 : ℤ)), p.2)) := rfl

lemma isDig_ne (c : Char) (h : isDig c = true) :
    c ≠ 'n' ∧ c ≠ 't' ∧ c ≠ 'f' ∧ c ≠ cQuote ∧ c ≠ cLbrack ∧ c ≠ cLbrace ∧
    c ≠ cMinus := by
  refine ⟨?_, ?_, ?_, ?_, ?_, ?_, ?_⟩ <;>
    (rintro rfl; exact absurd h (by decide))

lemma isDig_ne_rbrack {c : Char} (h : isDig c = true) : c ≠ cRbrack := by
  rintro rfl; exact absurd h (by decide)

lemma parseVal_digit (f : Nat) (c : Char) (X : List Char) (h : isDig c = true) :
    parseVal (f + 1) (c :: X) =
      (parseNat (c :: X)).map (fun p => (.int (p.1 : ℤ), p.2)) := by
  obtain ⟨n1, n2, n3, n4, n5, n6, n7⟩ := isDig_ne c h
  simp only [parseVal]
  rw [if_neg n1, if_neg n2, if_neg n3, if_neg n4, if_neg n5, if_neg n6, if_neg n7,
    if_pos h]

lemma parseElems_step (f : Nat) (l : List Char) :
    parseElems (f + 1) l =
      (parseVal f l).bind (fun p =>
        match p.2 with
        | [] => none
        | d :: r' =>
          if d = cComma then (parseElems f r').map (fun q => (.cons p.1 q.1, q.2))
          else if d = cRbrack then some (.cons p.1 .nil, r')
          else none) := rfl

lemma parseMembersQuote (f : Nat) (X : List Char) :
    parseMembers (f + 1) (cQuote :: X) =
      (parseStrBodyF X.length X).bind (fun k =>
        match k.2 with
        | [] => none
        | d :: r₂ =>
          if d = cColon then
            (parseVal f r₂).bind (fun p =>
              match p.2 with
              | [] => none
              | e :: r₃ =>
                if e = cComma then
                  (parseMembers f r₃).map (fun q => (.cons k.1 p.1 q.1, q.2))
                else if e = cRbrace then some (.cons k.1 p.1 .nil, r₃)
                else none)
          else none) := rfl

lemma heightV_pos (v : JVal) : 0 < heightV v := by
  cases v <;> simp [heightV]

lemma heightA_pos (xs : JArr) : 0 < heightA xs := by
  cases xs <;> simp [heightA]

lemma heightM_pos (fs : JObj) : 0 < heightM fs := by
  cases fs <;> simp [heightM]

lemma ser_head_props (v : JVal) : ∃ d rr, ser v = d :: rr ∧
    d ≠ cRbrack ∧ d ≠ cRbrace ∧ d ≠ cBtick ∧ isPySpace d = false := by
  obtain ⟨d, rr, hser, hgood⟩ := ser_head v
  refine ⟨d, rr, hser, ?_⟩
  rcases hgood with h | h | h | h | h | h | h | h
  · subst h; refine ⟨by decide, by decide, by decide, by decide⟩
  · subst h; refine ⟨by decide, by decide, by decide, by decide⟩
  · subst h; refine ⟨by decide, by decide, by decide, by decide⟩
  · subst h; refine ⟨by decide, by decide, by decide, by decide⟩
  · subst h; refine ⟨by decide, by decide, by decide, by decide⟩
  · subst h; refine ⟨by decide, by decide, by decide, by decide⟩
  · subst h; refine ⟨by decide, by decide, by decide, by decide⟩
  · exact ⟨isDig_ne_rbrack h, by rintro rfl; exact absurd h (by decide),
      isDig_ne_btick h, isDig_not_space h⟩

lemma parseVal_lbrack_cons (f : Nat) (d : Char) (T : List Char) :
    parseVal (f + 1) (cLbrack :: d :: T) =
      if d = cRbrack then some (.arr .nil, T)
      else (parseElems f (d :: T)).map (fun p => (.arr p.1, p.2)) := rfl

lemma parseVal_lbrace_cons (f : Nat) (d : Char) (T : List Char) :
    parseVal (f + 1) (cLbrace :: d :: T) =
      if d = cRbrace then some (.obj .nil, T)
      else (parseMembers f (d :: T)).map (fun p => (.obj p.1, p.2)) := rfl

theorem parse_ser_all : ∀ n : Nat,
    (∀ v : JVal, heightV v ≤ n →
      ∀ fuel rest, heightV v ≤ fuel → restOk rest = true →
        parseVal fuel (ser v ++ rest) = some (v, rest)) ∧
    (∀ xs : JArr, heightA xs ≤ n → xs ≠ .nil →
      ∀ fuel rest, heightA xs ≤ fuel → restOk rest = true →
        parseElems fuel (serArr xs ++ cRbrack :: rest) = some (xs, rest)) ∧
    (∀ fs : JObj, heightM fs ≤ n → fs ≠ .nil →
      ∀ fuel rest, heightM fs ≤ fuel → restOk rest = true →
        parseMembers fuel (serObj fs ++ cRbrace :: rest) = some (fs, rest)) := by
  intro n
  induction n with
  | zero =>
    refine ⟨?_, ?_, ?_⟩
    · intro v hv
      have := heightV_pos v
      omega
    · intro xs hx
      have := heightA_pos xs
      omega
    · intro fs hx
      have := heightM_pos fs
      omega
  | succ n ih =>
    obtain ⟨ihV, ihA, ihM⟩ := ih
    refine ⟨?_, ?_, ?_⟩
    · intro v hv fuel rest hf hr
      cases fuel with
      | zero =>
        have := heightV_pos v
        omega
      | succ f =>
        cases v with
        | null => rfl
        | bool b => cases b <;> rfl
        | int m =>
          by_cases hm : m < 0
          · have hser : ser (.int m) = cMinus :: natChars m.natAbs := by
              simp [ser, intChars, hm]
            rw [hser, List.cons_append, parseVal_minus, parseNat_natChars _ _ hr]
            show some (JVal.int (-((m.natAbs : ℕ) : ℤ)), rest) = some (JVal.int m, rest)
            have hval : -(((m.natAbs : ℕ)) : ℤ) = m := by omega
            rw [hval]
          · have hser : ser (.int m) = natChars m.toNat := by
              simp [ser, intChars, hm]
            obtain ⟨d, ds, hds, hd⟩ := natChars_head m.toNat
            rw [hser, hds, List.cons_append, parseVal_digit f d _ hd,
              ← List.cons_append, ← hds, parseNat_natChars _ _ hr]
            show some (JVal.int (((m.toNat : ℕ)) : ℤ), rest) = some (JVal.int m, rest)
            have hval : (((m.toNat : ℕ)) : ℤ) = m := by omega
            rw [hval]
        | str s =>
          have hser : ser (.str s) ++ rest = cQuote :: (escape s ++ cQuote :: rest) := by
            simp [ser]
          rw [hser, parseVal_quote,
            parseStrBodyF_escape s _ rest
              (by simp only [List.length_append, List.length_cons]; omega)]
          rfl
        | arr xs =>
          have hser : ser (.arr xs) ++ rest = cLbrack :: (serArr xs ++ cRbrack :: rest) := by
            simp [ser]
          rw [hser]
          cases xs with
          | nil =>
            rw [show serArr JArr.nil = ([] : List Char) from rfl, List.nil_append,
              parseVal_lbrack_cons, if_pos rfl]
          | cons w tl =>
            obtain ⟨d, rr, hdser, hdrb, _, _, _⟩ := ser_head_props w
            have hY : ∃ Y, serArr (.cons w tl) = ser w ++ Y := by
              cases tl
              · exact ⟨[], by simp [serArr]⟩
              · exact ⟨_, rfl⟩
            obtain ⟨Y, hYe⟩ := hY
            have hhead : serArr (.cons w tl) ++ cRbrack :: rest =
                d :: (rr ++ (Y ++ cRbrack :: rest)) := by
              rw [hYe, hdser]
              simp
            rw [hhead, parseVal_lbrack_cons, if_neg hdrb, ← hhead]
            have h1 : heightA (JArr.cons w tl) ≤ n := by
              simp only [heightV] at hv
              omega
            have h2 : heightA (JArr.cons w tl) ≤ f := by
              simp only [heightV] at hf
              omega
            rw [ihA (JArr.cons w tl) h1 (by simp) f rest h2 hr]
            rfl
        | obj fs =>
          have hser : ser (.obj fs) ++ rest = cLbrace :: (serObj fs ++ cRbrace :: rest) := by
            simp [ser]
          rw [hser]
          cases fs with
          | nil =>
            rw [show serObj JObj.nil = ([] : List Char) from rfl, List.nil_append,
              parseVal_lbrace_cons, if_pos rfl]
          | cons k w tl =>
            have hZ : ∃ Z, serObj (.cons k w tl) = cQuote :: Z := by
              cases tl
              · exact ⟨_, rfl⟩
              · exact ⟨_, rfl⟩
            obtain ⟨Z, hZe⟩ := hZ
            have hhead : serObj (.cons k w tl) ++ cRbrace :: rest =
                cQuote :: (Z ++ cRbrace :: rest) := by
              rw [hZe]
              simp
            rw [hhead, parseVal_lbrace_cons, if_neg (by decide), ← hhead]
            have h1 : heightM (JObj.cons k w tl) ≤ n := by
              simp only [heightV] at hv
              omega
            have h2 : heightM (JObj.cons k w tl) ≤ f := by
              simp only [heightV] at hf
              omega
            rw [ihM (JObj.cons k w tl) h1 (by simp) f rest h2 hr]
            rfl
    · intro xs hx hne fuel rest hf hr
      cases fuel with
      | zero =>
        have := heightA_pos xs
        omega
      | succ f =>
        cases xs with
        | nil => exact absurd rfl hne
        | cons w tl =>
          have hmax1 := le_max_left (heightV w) (heightA tl)
          have hmax2 := le_max_right (heightV w) (heightA tl)
          simp only [heightA] at hx hf
          cases tl with
          | nil =>
            rw [show serArr (.cons w .nil) = ser w from rfl, parseElems_step,
              ihV w (by omega) f (cRbrack :: rest) (by omega) rfl]
            rfl
          | cons u tl' =>
            rw [show serArr (.cons w (.cons u tl')) =
                ser w ++ cComma :: serArr (.cons u tl') from rfl]
            have hassoc : (ser w ++ cComma :: serArr (.cons u tl')) ++ cRbrack :: rest =
                ser w ++ (cComma :: (serArr (.cons u tl') ++ cRbrack :: rest)) := by
              simp
            rw [hassoc, parseElems_step,
              ihV w (by omega) f
                (cComma :: (serArr (.cons u tl') ++ cRbrack :: rest)) (by omega) rfl]
            show (parseElems f (serArr (.cons u tl') ++ cRbrack :: rest)).map
                (fun q => (JArr.cons w q.1, q.2)) = _
            rw [ihA (.cons u tl') (by omega) (by simp) f rest (by omega) hr]
            rfl
    · intro fs hx hne fuel rest hf hr
      cases fuel with
      | zero =>
        have := heightM_pos fs
        omega
      | succ f =>
        cases fs with
        | nil => exact absurd rfl hne
        | cons k w tl =>
          have hmax1 := le_max_left (heightV w) (heightM tl)
          have hmax2 := le_max_right (heightV w) (heightM tl)
          simp only [heightM] at hx hf
          cases tl with
          | nil =>
            have hsm : serObj (.cons k w .nil) ++ cRbrace :: rest =
                cQuote :: (escape k ++ cQuote :: (cColon :: (ser w ++ cRbrace :: rest))) := by
              rw [show serObj (.cons k w .nil) =
                  cQuote :: (escape k ++ [cQuote]) ++ cColon :: ser w from rfl]
              simp
            rw [hsm, parseMembersQuote,
              parseStrBodyF_escape k _ _
                (by simp only [List.length_append, List.length_cons]; omega)]
            show (parseVal f (ser w ++ cRbrace :: rest)).bind _ = _
            rw [ihV w (by omega) f (cRbrace :: rest) (by omega) rfl]
            rfl
          | cons k' u tl' =>
            have hsm : serObj (.cons k w (.cons k' u tl')) ++ cRbrace :: rest =
                cQuote :: (escape k ++ cQuote ::
                  (cColon :: (ser w ++ cComma ::
                    (serObj (.cons k' u tl') ++ cRbrace :: rest)))) := by
              rw [show serObj (.cons k w (.cons k' u tl')) =
                  (cQuote :: (escape k ++ [cQuote]) ++ cColon :: ser w) ++
                    cComma :: serObj (.cons k' u tl') from rfl]
              simp
            rw [hsm, parseMembersQuote,
              parseStrBodyF_escape k _ _
                (by simp only [List.length_append, List.length_cons]; omega)]
            show (parseVal f (ser w ++ cComma ::
                (serObj (.cons k' u tl') ++ cRbrace :: rest))).bind _ = _
            rw [ihV w (by omega) f
                (cComma :: (serObj (.cons k' u tl') ++ cRbrace :: rest)) (by omega) rfl]
            show (parseMembers f (serObj (.cons k' u tl') ++ cRbrace :: rest)).map
                (fun q => (JObj.cons k w q.1, q.2)) = _
            rw [ihM (.cons k' u tl') (by omega) (by simp) f rest (by omega) hr]
            rfl

theorem height_le_ser : ∀ n : Nat,
    (∀ v : JVal, heightV v ≤ n → heightV v ≤ (ser v).length) ∧
    (∀ xs : JArr, heightA xs ≤ n → heightA xs ≤ (serArr xs).length + 1) ∧
    (∀ fs : JObj, heightM fs ≤ n → heightM fs ≤ (serObj fs).length + 1) := by
  intro n
  induction n with
  | zero =>
    refine ⟨?_, ?_, ?_⟩
    · intro v hv; have := heightV_pos v; omega
    · intro xs hx; have := heightA_pos xs; omega
    · intro fs hx; have := heightM_pos fs; omega
  | succ n ih =>
    obtain ⟨ihV, ihA, ihM⟩ := ih
    refine ⟨?_, ?_, ?_⟩
    · intro v hv
      cases v with
      | arr xs =>
        have hx : heightA xs ≤ n := by simp only [heightV] at hv; omega
        have h1 := ihA xs hx
        have h2 : (ser (.arr xs)).length = (serArr xs).length + 2 := by simp [ser]
        simp only [heightV]
        omega
      | obj fs =>
        have hx : heightM fs ≤ n := by simp only [heightV] at hv; omega
        have h1 := ihM fs hx
        have h2 : (ser (.obj fs)).length = (serObj fs).length + 2 := by simp [ser]
        simp only [heightV]
        omega
      | null =>
        have := List.length_pos.mpr (ser_ne_nil .null)
        simp only [heightV]
        omega
      | bool b =>
        have := List.length_pos.mpr (ser_ne_nil (.bool b))
        simp only [heightV]
        omega
      | int m =>
        have := List.length_pos.mpr (ser_ne_nil (.int m))
        simp only [heightV]
        omega
      | str s =>
        have := List.length_pos.mpr (ser_ne_nil (.str s))
        simp only [heightV]
        omega
    · intro xs hx
      cases xs with
      | nil => simp [heightA, serArr]
      | cons w tl =>
        have hw : heightV w ≤ n := by
          have := le_max_left (heightV w) (heightA tl)
          simp only [heightA] at hx
          omega
        have h1 := ihV w hw
        have hpos := List.length_pos.mpr (ser_ne_nil w)
        cases tl with
        | nil =>
          rw [show serArr (.cons w .nil) = ser w from rfl]
          simp only [heightA]
          omega
        | cons u tl' =>
          have htl : heightA (JArr.cons u tl') ≤ n := by
            have := le_max_right (heightV w) (heightA (JArr.cons u tl'))
            simp only [heightA] at hx
            simp only [heightA]
            omega
          have h2 := ihA _ htl
          rw [show serArr (.cons w (.cons u tl')) =
              ser w ++ cComma :: serArr (.cons u tl') from rfl]
          simp only [heightA, List.length_append, List.length_cons] at *
          omega
    · intro fs hx
      cases fs with
      | nil => simp [heightM, serObj]
      | cons k w tl =>
        have hw : heightV w ≤ n := by
          have := le_max_left (heightV w) (heightM tl)
          simp only [heightM] at hx
          omega
        have h1 := ihV w hw
        have hpos := List.length_pos.mpr (ser_ne_nil w)
        cases tl with
        | nil =>
          rw [show serObj (.cons k w .nil) =
              cQuote :: (escape k ++ [cQuote]) ++ cColon :: ser w from rfl]
          simp only [heightM, List.length_append, List.length_cons] at *
          omega
        | cons k' u tl' =>
          have htl : heightM (JObj.cons k' u tl') ≤ n := by
            have := le_max_right (heightV w) (heightM (JObj.cons k' u tl'))
            simp only [heightM] at hx
            simp only [heightM]
            omega
          have h2 := ihM _ htl
          rw [show serObj (.cons k w (.cons k' u tl')) =
              (cQuote :: (escape k ++ [cQuote]) ++ cColon :: ser w) ++
                cComma :: serObj (.cons k' u tl') from rfl]
          simp only [heightM, List.length_append, List.length_cons] at *
          omega

lemma loads_ser (v : JVal) : loads (ser v) = some v := by
  unfold loads
  have hle : heightV v ≤ (ser v).length := (height_le_ser (heightV v)).1 v le_rfl
  have h := (parse_ser_all (heightV v)).1 v le_rfl ((ser v).length + 1) [] (by omega) rfl
  rw [List.append_nil] at h
  rw [h]

lemma repoParse_ser (v : JVal) : repoParse (ser v) = some v := by
  obtain ⟨d, rr, hd, _, _, hdt, hdsp⟩ := ser_head_props v
  obtain ⟨r2, c2, hlast, hc2⟩ := ser_last v
  have hstrip : pyStrip (ser v) = ser v := by
    refine pyStrip_no_space _ (fun c hc => ?_) (fun c hc => ?_)
    · rw [hd] at hc
      injection hc with h'
      subst h'
      exact hdsp
    · rw [hlast, List.getLast?_concat] at hc
      injection hc with h'
      subst h'
      exact hc2
  have htp : ticksPre (ser v) = false := by
    rw [hd]
    exact ticksPre_cons_false _ _ hdt
  unfold repoParse
  rw [hstrip]
  simp only [htp, Bool.false_eq_true, if_false]
  exact loads_ser v

lemma repoParse_fenceJson (v : JVal) (h : hasTicks (ser v) = false) :
    repoParse (fenceJson (ser v)) = some v := by
  obtain ⟨d, rr, hd, _, _, hdt, hdsp⟩ := ser_head_props v
  obtain ⟨r2, c2, hlast, hc2⟩ := ser_last v
  have hne : ser v ≠ [] := ser_ne_nil v
  have hfence : fenceJson (ser v) =
      cBtick :: cBtick :: cBtick ::
        (('j' :: 's' :: 'o' :: 'n' :: cNl :: (ser v ++ [cNl])) ++
          [cBtick, cBtick, cBtick]) := by
    simp [fenceJson]
  have hstrip : pyStrip (fenceJson (ser v)) = fenceJson (ser v) := by
    refine pyStrip_no_space _ (fun c hc => ?_) (fun c hc => ?_)
    · rw [hfence] at hc
      injection hc with h'
      subst h'
      decide
    · have hform : fenceJson (ser v) =
          ([cBtick, cBtick, cBtick, 'j', 's', 'o', 'n', cNl] ++ ser v ++
            [cNl, cBtick, cBtick]) ++ [cBtick] := by
        simp [fenceJson]
      rw [hform, List.getLast?_concat] at hc
      injection hc with h'
      subst h'
      decide
  have htp : ticksPre (fenceJson (ser v)) = true := by
    rw [hfence]
    simp [ticksPre, List.take]
  have hmid : hasTicks (('j' :: 's' :: 'o' :: 'n' :: cNl :: (ser v ++ [cNl])) ++
      [cBtick, cBtick]) = false := by
    have h1 : hasTicks (ser v ++ [cNl, cBtick, cBtick]) = false := by
      refine hasTicks_append_false _ _ h (by decide) (fun c hc => ?_)
      injection hc with h'
      subst h'
      decide
    have hshape : ('j' :: 's' :: 'o' :: 'n' :: cNl :: (ser v ++ [cNl])) ++
        [cBtick, cBtick] =
        'j' :: 's' :: 'o' :: 'n' :: cNl :: (ser v ++ [cNl, cBtick, cBtick]) := by
      simp
    rw [hshape]
    refine hasTicks_cons_false _ _ (by decide) ?_
    refine hasTicks_cons_false _ _ (by decide) ?_
    refine hasTicks_cons_false _ _ (by decide) ?_
    refine hasTicks_cons_false _ _ (by decide) ?_
    exact hasTicks_cons_false _ _ (by decide) h1
  have hsplit : pySplitTicks (fenceJson (ser v)) =
      [[], 'j' :: 's' :: 'o' :: 'n' :: cNl :: (ser v ++ [cNl]), []] := by
    rw [hfence]
    exact pySplitTicks_fence _ hmid
  have hjson : jsonPre ('j' :: 's' :: 'o' :: 'n' :: cNl :: (ser v ++ [cNl])) = true := by
    simp [jsonPre, List.take]
  have hdrop : ('j' :: 's' :: 'o' :: 'n' :: cNl :: (ser v ++ [cNl])).drop 4 =
      cNl :: (ser v ++ [cNl]) := rfl
  have hstrip2 : pyStrip (cNl :: (ser v ++ [cNl])) = ser v := by
    refine pyStrip_nl_wrap _ hne (fun c hc => ?_) (fun c hc => ?_)
    · rw [hd] at hc
      injection hc with h'
      subst h'
      exact hdsp
    · rw [hlast, List.getLast?_concat] at hc
      injection hc with h'
      subst h'
      exact hc2
  unfold repoParse
  rw [hstrip]
  simp only [htp, if_true, hsplit,
    show ([[], 'j' :: 's' :: 'o' :: 'n' :: cNl :: (ser v ++ [cNl]), []]).getD 1 ([] : List Char) =
      'j' :: 's' :: 'o' :: 'n' :: cNl :: (ser v ++ [cNl]) from rfl,
    hjson, hdrop, hstrip2]
  exact loads_ser v

/-- C6 counterexample: for the JSON string value containing three backticks,
the fence-stripping parse of the fenced serialization fails (the split on
triple backticks cuts inside the payload), so the fenced round-trip does not
hold for every JSON value. -/
theorem C6_counterexample :
    repoParse (fenceJson (ser (.str [cBtick, cBtick, cBtick]))) = none ∧
    (none : Option JVal) ≠ some (.str [cBtick, cBtick, cBtick]) := by
  refine ⟨rfl, ?_⟩
  simp

/-- C6 amended: the unfenced round-trip `parse(serialize V) = V` holds for
every JSON value, and the fenced round-trip
`parse(fence("json", serialize V)) = V` holds provided the serialized text
does not contain three consecutive backticks. -/
theorem C6_parser_roundtrip (v : JVal) :
    repoParse (ser v) = some v ∧
    (hasTicks (ser v) = false → repoParse (fenceJson (ser v)) = some v) :=
  ⟨repoParse_ser v, fun h => repoParse_fenceJson v h⟩

/-- C6 witness: both round-trips at the one-field object with key "a" and
string value "b". -/
theorem C6_parser_roundtrip_witness :
    hasTicks (ser (.obj (.cons ['a'] (.str ['b']) .nil))) = false ∧
    repoParse (fenceJson (ser (.obj (.cons ['a'] (.str ['b']) .nil)))) =
      some (.obj (.cons ['a'] (.str ['b']) .nil)) ∧
    repoParse (ser (.obj (.cons ['a'] (.str ['b']) .nil))) =
      some (.obj (.cons ['a'] (.str ['b']) .nil)) :=
  ⟨rfl, (C6_parser_roundtrip _).2 rfl, (C6_parser_roundtrip _).1⟩
